import Mathlib

/-!
# Verification of the demographics module (`demographics.py`)

Shallow embedding of `src/Python/3_demographics/demographics.py` over exact
rational arithmetic.  Matrices are `Fin`-indexed functions, numpy float
arithmetic is modelled by `ℚ`, Python 2 integer division by `Nat` division,
the one out-of-bounds access reachable from the claims
(`imm_array[0]` when `S = 1` and the time loop runs) is modelled by an
`Option` result, and the NaN produced by `np.mean` on an empty bucket slice
(`get_fert` with `S > 60`) is modelled by an `Option` entry.

The repository's CSV data files (`demographic_data.csv`,
`mortality_rates.csv`) are not part of the source tree, and
`numpy.polynomial.polynomial.polyfit` is an external least-squares routine;
both are abstracted as parameters collected in `ExtData`.  Everything the
module itself computes (clamping, re-binning, normalization, the projection
recurrence) is embedded directly from the source.
-/

namespace Demographics

/-- Embedding of `numpy.polynomial.polynomial.polyval`: evaluate a polynomial given by its
coefficient list (constant term first) at a point, `c 0 + c 1 * x + ...`. -/
def polyval : List ℚ → ℚ → ℚ
  | [], _ => 0
  | c :: cs, x => c + x * polyval cs x

/-- Grid `np.linspace(15, 75, 60)[i] = 15 + 60*i/59`: the evaluation grid used by
`get_survival` and `get_fert`. -/
def fitAge (i : ℕ) : ℚ := 15 + 60 * i / 59

/-- Grid `np.linspace(1, 75, 74)[i] = 1 + 74*i/73`: the evaluation grid used by
`get_immigration` (74 evenly spaced points from 1 to 75, step 74/73). -/
def immAge (i : ℕ) : ℚ := 1 + 74 * i / 73

/-- The external inputs of the module.

Modelled from the spec: the CSV tables under `data/demographic/` are not in
the source tree, and `numpy`'s degree-10/degree-4 least-squares fits are
external numerics, so the fitted coefficient lists and the raw tables are
parameters.
* `poly_surv` — coefficients of `poly.polyfit(mort_data.age, mort_data.surv_rate, 10)`.
* `polyfit_imm` — `poly.polyfit(np.linspace(1,75,74), ·, 10)` as an
  uninterpreted function of the y-values (the y-values themselves are
  computed by the module, see `perc_change`).
* `poly_fert` — coefficients of `poly.polyfit(age_midpoint, fert_data, 4)`.
* `children_rate` — `mort_data[age < 15].surv_rate`, used at indices 0..14.
* `pop` — the four year columns of `data_raw` (`2010`..`2013`), by single
  year of age; per the spec these cover at least ages 0–76.
* `nAges` — the number of rows (ages) of the raw population table. -/
structure ExtData where
  poly_surv : List ℚ
  polyfit_imm : (ℕ → ℚ) → List ℚ
  poly_fert : List ℚ
  children_rate : ℕ → ℚ
  pop : Fin 4 → ℕ → ℚ
  nAges : ℕ

/-! ## `get_survival` -/

/-- The per-year fitted survival rates, clamped from above:
`survival_rate[i] = 1.0 if survival_rate[i] > 1.0` (no lower clamp). -/
def survival_rate (d : ExtData) (i : ℕ) : ℚ :=
  min (polyval d.poly_surv (fitAge i)) 1

/-- Embedding of `surv_rate_condensed`: group-product re-binning of the 60 per-year
survival rates into `S` groups by integer-bucket slicing
`survival_rate[s*(60/S):(s+1)*(60/S)]` (Python 2 `/` is floor division),
with the last entry forced to 0. -/
def survCond (d : ExtData) (S s : ℕ) : ℚ :=
  if s = S - 1 then 0
  else ∏ i in Finset.Ico (s * (60 / S)) ((s + 1) * (60 / S)), survival_rate d i

/-- Embedding of `get_survival(S, J)`: the `S × J` broadcast of `surv_rate_condensed`. -/
def get_survival (d : ExtData) (S J : ℕ) : Fin S → Fin J → ℚ :=
  fun s _ => survCond d S s.val

/-! ## `get_immigration` -/

/-- Array `surv_array` inside `get_immigration`: `children_rate` (ages 0–14)
concatenated with the 60 entries of `get_survival(60, 1)`. -/
def survArrImm (d : ExtData) (i : ℕ) : ℚ :=
  if i < 15 then d.children_rate i else survCond d 60 (i - 15)

/-- Embedding of `pop_2010 = data_raw['2010'][1:76] * surv_array`. -/
def pop_2010adj (d : ExtData) (i : ℕ) : ℚ :=
  d.pop 0 (1 + i) * survArrImm d i

/-- Embedding of `perc_change = ((pop_2011 - pop_2010) / pop_2010) + 1.0` where
`pop_2011 = data_raw['2011'][2:77]`; used at indices 0..73 (the last of the
75 raw entries is dropped by `perc_change[:-1]`). -/
def perc_change (d : ExtData) (i : ℕ) : ℚ :=
  (d.pop 1 (2 + i) - pop_2010adj d i) / pop_2010adj d i + 1

/-- Embedding of `poly_imm = poly.polyfit(np.linspace(1, 75, 74), perc_change, deg=10)`. -/
def poly_imm (d : ExtData) : List ℚ :=
  d.polyfit_imm (perc_change d)

/-- Embedding of `im_array = poly.polyval(np.linspace(1, 75, 74), poly_imm)`. -/
def im_array (d : ExtData) (i : ℕ) : ℚ :=
  polyval (poly_imm d) (immAge i)

/-- Embedding of `children_im = im_array[0:14]`. -/
def children_im (d : ExtData) (i : ℕ) : ℚ := im_array d i

/-- Embedding of `imm_rate_condensed`: group-product re-binning of
`im_array2 = im_array[15:76]` into `S-1` groups via
`im_array2[s*(60/S):(s+1)*(60/S)]`. -/
def immCond (d : ExtData) (S s : ℕ) : ℚ :=
  ∏ i in Finset.Ico (s * (60 / S)) ((s + 1) * (60 / S)), im_array d (15 + i)

/-- Embedding of `get_immigration(S, J)`: the `(S-1) × J` broadcast of
`imm_rate_condensed`, and `children_im` (14 entries). -/
def get_immigration (d : ExtData) (S J : ℕ) :
    (Fin (S - 1) → Fin J → ℚ) × (Fin 14 → ℚ) :=
  (fun s _ => immCond d S s.val, fun i => children_im d i.val)

/-! ## `get_fert` -/

/-- The per-year fitted fertility rates before clamping. -/
def fert_rate_raw (d : ExtData) (i : ℕ) : ℚ :=
  polyval d.poly_fert (fitAge i)

/-- Fertility clamps, in source order: zero outside ages (10, 50], then zero
any remaining negative value. -/
def fert_rate_clamped (d : ExtData) (i : ℕ) : ℚ :=
  if 50 < fitAge i ∨ fitAge i < 10 then 0 else max (fert_rate_raw d i) 0

/-- Embedding of `np.mean` over a half-open index range: the mean of the
values when the slice is nonempty, and `none` — modelling the NaN that
`np.mean` produces on an empty slice — otherwise. -/
def npMean (a b : ℕ) (f : ℕ → ℚ) : Option ℚ :=
  if a < b then some ((∑ i in Finset.Ico a b, f i) / ((Finset.Ico a b).card : ℚ))
  else none

/-- Embedding of `fert_rate_condensed[s]`: `np.mean` of the integer-bucket
slice `fert_rate[s*(60/S):(s+1)*(60/S)]`.  The slice is empty (and the mean
NaN, i.e. `none`) exactly when `60 / S = 0`, i.e. `S > 60`. -/
def fertCondM (d : ExtData) (S s : ℕ) : Option ℚ :=
  npMean (s * (60 / S)) ((s + 1) * (60 / S)) (fert_rate_clamped d)

/-- The rational value of `fert_rate_condensed[s]` in the non-NaN case
(nonempty bucket, `S ≤ 60`): the group sum divided by the number of points
in the slice.  `fertCondM_eq_some` connects the two. -/
def fertCond (d : ExtData) (S s : ℕ) : ℚ :=
  (∑ i in Finset.Ico (s * (60 / S)) ((s + 1) * (60 / S)), fert_rate_clamped d i) /
    ((Finset.Ico (s * (60 / S)) ((s + 1) * (60 / S))).card : ℚ)

/-- One entry of the fertility matrix in the non-NaN case: the condensed
group mean divided by 2 (`fert_rate /= 2.0`).  The projection model
(`get_omega` and its claims) carries this rational value. -/
def fertM (d : ExtData) (S s : ℕ) : ℚ := fertCond d S s / 2

/-- Embedding of `get_fert(S, J)`: the `S × J` broadcast of the halved
condensed rates (an entry is `none` when `np.mean` of its empty bucket is
NaN), plus the `15 × J` zero `children` array. -/
def get_fert (d : ExtData) (S J : ℕ) :
    (Fin S → Fin J → Option ℚ) × (Fin 15 → Fin J → ℚ) :=
  (fun s _ => (fertCondM d S s.val).map (· / 2), fun _ _ => 0)

/-! ## `get_omega`

The module-level table `data = data_raw[16:76]` (ages 16..75 after
`set_index('Age')`) is mutable state: `get_omega` normalizes its four year
columns in place.  We model it as `DState` and `get_omega` as a function
from state to (result, new state).  The loop body indexes `imm_array[0]`,
which raises `IndexError` when `S - 1 = 0`; and `get_survival(S, J)` divides
by `S`, raising `ZeroDivisionError` at `S = 0`.  Those failures are the
`none` result. -/

/-- The mutable module table `data`: four year columns over the 60 retained
ages 16..75 (row `i` holds age `16 + i`). -/
def DState : Type := Fin 4 → Fin 60 → ℚ

/-- The initial module state, `data = data_raw[16:76]`. -/
def initState (d : ExtData) : DState := fun y i => d.pop y (16 + i.val)

/-- The in-place normalization `data[year] /= data[year].sum()` performed by
`get_omega` on all four columns. -/
def normState (st : DState) : DState :=
  fun y i => st y i / ∑ k : Fin 60, st y k

/-- Embedding of `age_groups = np.linspace(16, 76, S+1)`: breakpoint `k` is `16 + 60*k/S`. -/
def ageGroup (S k : ℕ) : ℚ := 16 + 60 * k / S

/-- Embedding of `new_omega[ind]`: the sum of the (already normalized) 2010 column over
ages in `[age_groups[ind], age_groups[ind+1])`. -/
def new_omega (st : DState) (S s : ℕ) : ℚ :=
  ∑ i in Finset.univ.filter
      (fun i : Fin 60 =>
        ageGroup S s ≤ 16 + (i.val : ℚ) ∧ (16 + (i.val : ℚ)) < ageGroup S (s + 1)),
    st 0 i

/-- Slice 0 of the tensor: `new_omega` reshaped, tiled over the `J` ability
columns and divided by `J`. -/
def omega0 (st : DState) (S J : ℕ) : Fin S → Fin J → ℚ :=
  fun s _ => new_omega st S s.val / J

/-- The seeded `children` array before the time loop:
`children[ind] = (omega_big[0] * fert_rate).sum(0) * prod(children_rate[:ind]) * prod(children_im[:ind])`. -/
def child0 (d : ExtData) (st : DState) (S J : ℕ) : ℕ → Fin J → ℚ :=
  fun ind j =>
    (∑ s : Fin S, omega0 st S J s j * fertM d S s.val) *
      (∏ k in Finset.range ind, d.children_rate k) *
      (∏ k in Finset.range ind, children_im d k)

/-- The next time slice of the tensor:
`omega_big[t, 0, :] = children[-1, :] * children_rate[-1] * imm_array[0]` and
`omega_big[t, 1:, :] = omega_big[t-1, :-1, :] * surv_array[:-1] * imm_array`. -/
def nextOmega (d : ExtData) (S J : ℕ)
    (p : (Fin S → Fin J → ℚ) × (ℕ → Fin J → ℚ)) : Fin S → Fin J → ℚ :=
  fun s j =>
    if s.val = 0 then p.2 14 j * d.children_rate 14 * immCond d S 0
    else
      p.1 ⟨s.val - 1, Nat.lt_of_le_of_lt (Nat.sub_le _ _) s.isLt⟩ j *
        survCond d S (s.val - 1) * immCond d S (s.val - 1)

/-- The children update of one loop iteration:
`children[1:, :] = children[:-1, :] * children_rate[:-1] * children_im`
(old values), then `children[0, :] = (omega_big[t] * fert_rate).sum(0)` from
the just-updated slice. -/
def nextChild (d : ExtData) (S J : ℕ)
    (p : (Fin S → Fin J → ℚ) × (ℕ → Fin J → ℚ)) : ℕ → Fin J → ℚ :=
  fun i j =>
    if i = 0 then ∑ s : Fin S, nextOmega d S J p s j * fertM d S s.val
    else p.2 (i - 1) j * d.children_rate (i - 1) * children_im d (i - 1)

/-- One iteration of the time loop (source order: new first row from the old
children state, remaining rows aged from the old slice, children aged, then
this current-period newborns from the just-updated slice). -/
def projStep (d : ExtData) (S J : ℕ)
    (p : (Fin S → Fin J → ℚ) × (ℕ → Fin J → ℚ)) :
    (Fin S → Fin J → ℚ) × (ℕ → Fin J → ℚ) :=
  (nextOmega d S J p, nextChild d S J p)

/-- The pair (`omega_big[t]`, `children` after iteration `t`) of the time
loop, as a function of the normalized state. -/
def projSeq (d : ExtData) (S J : ℕ) (st : DState) :
    ℕ → (Fin S → Fin J → ℚ) × (ℕ → Fin J → ℚ)
  | 0 => (omega0 st S J, child0 d st S J)
  | t + 1 => projStep d S J (projSeq d S J st t)

/-- Embedding of `get_omega(S, J, T)`: normalizes the module table in place, then builds
the `T × S × J` tensor.  `none` models the `ZeroDivisionError` at `S = 0`
and the `IndexError` from `imm_array[0]` when the loop runs (`T ≥ 2`) with
`S = 1`. -/
def get_omega (d : ExtData) (S J T : ℕ) (st : DState) :
    Option (Fin T → Fin S → Fin J → ℚ) × DState :=
  let st' := normState st
  (if S = 0 ∨ (2 ≤ T ∧ S = 1) then none
   else some (fun t s j => (projSeq d S J st' t.val).1 s j),
   st')

/-! ## Spec-side definitions and concrete data instances -/

/-- Modelled from the spec: the spec asserts the normalized age distribution
consists of "real-valued fractions summing to 1 over the *full* raw age
range" — i.e. each age's fraction is its share of the full-range yearly
total, over all `nAges` raw ages. -/
def specNormFull (d : ExtData) (y : Fin 4) (a : ℕ) : ℚ :=
  d.pop y a / ∑ b in Finset.range d.nAges, d.pop y b

/-- Modelled from the spec: the spec asserts `get_immigration` "evaluates
\[the fitted polynomial\] at every integer age 1 through 75" and returns
"the fitted per-age values" as the child-immigration vector — so entry `i`
is the fitted value at the integer age `1 + i`. -/
def children_im_spec (c : List ℚ) (i : ℕ) : ℚ := polyval c (1 + (i : ℚ))

/-- A concrete external-data instance: empty fits, zero tables. -/
def dZero : ExtData :=
  { poly_surv := []
    polyfit_imm := fun _ => []
    poly_fert := []
    children_rate := fun _ => 0
    pop := fun _ _ => 0
    nAges := 77 }

/-- A concrete external-data instance whose population table has one person
at age 20 (inside the working range [16,76)) and one at age 5 (outside it). -/
def dMass : ExtData :=
  { poly_surv := []
    polyfit_imm := fun _ => []
    poly_fert := []
    children_rate := fun _ => 0
    pop := fun _ a => if a = 20 then 1 else if a = 5 then 1 else 0
    nAges := 77 }

/-- A concrete external-data instance whose immigration fit is the identity
polynomial `x`, exposing the evaluation grid. -/
def dIdImm : ExtData :=
  { poly_surv := []
    polyfit_imm := fun _ => [0, 1]
    poly_fert := []
    children_rate := fun _ => 0
    pop := fun _ _ => 0
    nAges := 77 }

/-! ## Helper lemmas -/

/-- The upper clamp works: every per-year survival rate is at most 1. -/
lemma survival_rate_le_one (d : ExtData) (i : ℕ) : survival_rate d i ≤ 1 :=
  min_le_right _ _

/-- Every index used by group `s < S` of the re-binning lies below
`S * (60 / S)` (hence below 60). -/
lemma group_index_lt (S s i : ℕ) (hs : s < S)
    (hi : i ∈ Finset.Ico (s * (60 / S)) ((s + 1) * (60 / S))) :
    i < S * (60 / S) := by
  have h1 : i < (s + 1) * (60 / S) := (Finset.mem_Ico.mp hi).2
  have h2 : (s + 1) * (60 / S) ≤ S * (60 / S) := Nat.mul_le_mul_right _ hs
  omega

/-- Bound `S * (60 / S) ≤ 60`. -/
lemma group_total_le (S : ℕ) : S * (60 / S) ≤ 60 := by
  rw [Nat.mul_comm]; exact Nat.div_mul_le_self 60 S

/-- If the fitted survival values are bounded below by `-1`, every condensed
survival entry is at most 1 (the clamp caps each factor at 1, so each factor
has absolute value at most 1, and so does the group product). -/
lemma survCond_le_one (d : ExtData) (S s : ℕ) (hs : s < S)
    (hlb : ∀ i < 60, -1 ≤ polyval d.poly_surv (fitAge i)) :
    survCond d S s ≤ 1 := by
  unfold survCond
  split
  · norm_num
  · set t := Finset.Ico (s * (60 / S)) ((s + 1) * (60 / S)) with ht
    have habs : ∀ i ∈ t, |survival_rate d i| ≤ 1 := by
      intro i hi
      have hi60 : i < 60 :=
        lt_of_lt_of_le (group_index_lt S s i hs hi) (group_total_le S)
      rw [abs_le]
      exact ⟨le_min (hlb i hi60) (by norm_num), survival_rate_le_one d i⟩
    calc ∏ i in t, survival_rate d i
        ≤ |∏ i in t, survival_rate d i| := le_abs_self _
      _ = ∏ i in t, |survival_rate d i| := Finset.abs_prod _ _
      _ ≤ 1 := Finset.prod_le_one (fun i _ => abs_nonneg _) habs

/-- Group re-binning only reads `survival_rate` below `S * (60 / S)`. -/
lemma survCond_agree (d e : ExtData) (S s : ℕ) (hs : s < S)
    (hagree : ∀ i < S * (60 / S), survival_rate d i = survival_rate e i) :
    survCond d S s = survCond e S s := by
  unfold survCond
  split
  · rfl
  · exact Finset.prod_congr rfl fun i hi => hagree i (group_index_lt S s i hs hi)

/-- Every clamped per-year fertility value is nonnegative. -/
lemma fert_rate_clamped_nonneg (d : ExtData) (i : ℕ) :
    0 ≤ fert_rate_clamped d i := by
  unfold fert_rate_clamped
  split
  · exact le_refl 0
  · exact le_max_right _ _

/-! ## Claims C2, C4, C8, C9 -/

/-- Claim C2. For every positive `S` and `J`, `get_survival(S, J)` returns an
`S × J` matrix (by type) in which every entry is at most 1.0, the last row
is identically 0, and within each row all `J` column entries are equal.
The entry bound uses the (spec-modelled) fact that the actual degree-10 fit
of the mortality data never drops below `-1`; the clamp then caps each
factor into `[-1, 1]` and group products stay at most 1. -/
theorem C2_survival_bounds (d : ExtData) (S J : ℕ) (hS : 1 ≤ S) (hJ : 1 ≤ J)
    (hlb : ∀ i < 60, -1 ≤ polyval d.poly_surv (fitAge i)) :
    (∀ s j, get_survival d S J s j ≤ 1) ∧
    (∀ j, get_survival d S J ⟨S - 1, by omega⟩ j = 0) ∧
    (∀ s j j', get_survival d S J s j = get_survival d S J s j') := by
  refine ⟨fun s j => survCond_le_one d S s.val s.isLt hlb, fun j => ?_,
    fun s j j' => rfl⟩
  simp [get_survival, survCond]

/-- Claim C2 witness. The hypotheses of `C2_survival_bounds` hold at the
concrete instance `dZero`, `S = 2`, `J = 1`. -/
theorem C2_survival_bounds_witness :
    (1 ≤ 2 ∧ 1 ≤ 1 ∧ ∀ i < 60, -1 ≤ polyval dZero.poly_surv (fitAge i)) ∧
    ((∀ s j, get_survival dZero 2 1 s j ≤ 1) ∧
     (∀ j, get_survival dZero 2 1 ⟨2 - 1, by omega⟩ j = 0) ∧
     (∀ s j j', get_survival dZero 2 1 s j = get_survival dZero 2 1 s j')) := by
  have hlb : ∀ i < 60, -1 ≤ polyval dZero.poly_surv (fitAge i) := by
    intro i _
    norm_num [dZero, polyval]
  exact ⟨⟨by norm_num, by norm_num, hlb⟩,
    C2_survival_bounds dZero 2 1 (by norm_num) (by norm_num) hlb⟩

/-- For `1 ≤ S ≤ 60` every integer bucket is nonempty, so `np.mean` does not
hit its NaN path and the condensed value is the rational group mean. -/
lemma fertCondM_eq_some (d : ExtData) (S s : ℕ) (hS : 1 ≤ S) (hS60 : S ≤ 60) :
    fertCondM d S s = some (fertCond d S s) := by
  have hk : 1 ≤ 60 / S := (Nat.one_le_div_iff (by omega)).mpr hS60
  have hlt : s * (60 / S) < (s + 1) * (60 / S) := by
    calc s * (60 / S) < s * (60 / S) + (60 / S) := by omega
      _ = (s + 1) * (60 / S) := by ring
  unfold fertCondM npMean
  rw [if_pos hlt]
  rfl

/-- Claim C4 (amended). For every positive `S ≤ 60` and positive `J`,
`get_fert(S, J)` returns an `S × J` matrix (by type) whose entries are all
defined and nonnegative, in which every entry of a cohort whose fitted age
points all lie outside `[10, 50]` is exactly 0, and each entry is the group
mean of the clamped per-year fitted values, halved, broadcast identically
across the `J` columns.  For `S > 60` the buckets are empty and `np.mean`
yields NaN entries instead (see the counterexample), so the original
claim's bounds fail there. -/
theorem C4_fert_bounds (d : ExtData) (S J : ℕ) (hS : 1 ≤ S) (hS60 : S ≤ 60)
    (hJ : 1 ≤ J) :
    (∀ s j, ∃ q : ℚ, (get_fert d S J).1 s j = some q ∧ 0 ≤ q) ∧
    (∀ (s : Fin S) (j : Fin J),
      (∀ i ∈ Finset.Ico (s.val * (60 / S)) ((s.val + 1) * (60 / S)),
          50 < fitAge i ∨ fitAge i < 10) →
        (get_fert d S J).1 s j = some 0) ∧
    (∀ (s : Fin S) (j : Fin J),
      (get_fert d S J).1 s j =
        some (((∑ i in Finset.Ico (s.val * (60 / S)) ((s.val + 1) * (60 / S)),
            fert_rate_clamped d i) /
          ((Finset.Ico (s.val * (60 / S)) ((s.val + 1) * (60 / S))).card : ℚ)) / 2)) ∧
    (∀ s j j', (get_fert d S J).1 s j = (get_fert d S J).1 s j') := by
  have hmap : ∀ s : Fin S,
      (get_fert d S J).1 s = fun _ : Fin J => some (fertM d S s.val) := by
    intro s
    funext j
    show (fertCondM d S s.val).map (· / 2) = _
    rw [fertCondM_eq_some d S s.val hS hS60]
    rfl
  refine ⟨fun s j => ?_, fun s j h => ?_, fun s j => ?_, fun s j j' => rfl⟩
  · refine ⟨fertM d S s.val, by rw [hmap s], ?_⟩
    apply div_nonneg _ (by norm_num)
    exact div_nonneg (Finset.sum_nonneg fun i _ => fert_rate_clamped_nonneg d i)
      (Nat.cast_nonneg _)
  · rw [hmap s]
    have hz : fertM d S s.val = 0 := by
      unfold fertM fertCond
      rw [Finset.sum_eq_zero fun i hi => ?_]
      · rw [zero_div, zero_div]
      · unfold fert_rate_clamped
        rw [if_pos (h i hi)]
    rw [hz]
  · rw [hmap s]
    exact rfl

/-- Claim C4 counterexample. The original claim quantifies over every
positive `S`, but at `S = 61` Python-2 `60 / 61 = 0` makes every bucket
slice `fert_rate[0:0]` empty, and `np.mean` of an empty slice is NaN
(modelled `none`): the entry is not a nonnegative number, refuting
"all entries ≥ 0". -/
theorem C4_fert_bounds_counterexample :
    (get_fert dZero 61 1).1 ⟨0, by omega⟩ ⟨0, by omega⟩ = none ∧
    ¬ ∃ q : ℚ, (get_fert dZero 61 1).1 ⟨0, by omega⟩ ⟨0, by omega⟩ = some q ∧
      0 ≤ q := by
  have hnone : (get_fert dZero 61 1).1 ⟨0, by omega⟩ ⟨0, by omega⟩ = none := by
    show (fertCondM dZero 61 0).map (· / 2) = none
    unfold fertCondM npMean
    norm_num
  exact ⟨hnone, by rw [hnone]; rintro ⟨q, hq, _⟩; exact Option.noConfusion hq⟩

/-- Claim C4 witness. The hypotheses of `C4_fert_bounds` hold at the concrete
instance `dZero`, `S = 2`, `J = 1`. -/
theorem C4_fert_bounds_witness :
    (1 ≤ 2 ∧ 2 ≤ 60 ∧ 1 ≤ 1) ∧
    ((∀ s j, ∃ q : ℚ, (get_fert dZero 2 1).1 s j = some q ∧ 0 ≤ q) ∧
     (∀ (s : Fin 2) (j : Fin 1),
       (∀ i ∈ Finset.Ico (s.val * (60 / 2)) ((s.val + 1) * (60 / 2)),
           50 < fitAge i ∨ fitAge i < 10) →
         (get_fert dZero 2 1).1 s j = some 0) ∧
     (∀ (s : Fin 2) (j : Fin 1),
       (get_fert dZero 2 1).1 s j =
         some (((∑ i in Finset.Ico (s.val * (60 / 2)) ((s.val + 1) * (60 / 2)),
             fert_rate_clamped dZero i) /
           ((Finset.Ico (s.val * (60 / 2)) ((s.val + 1) * (60 / 2))).card : ℚ)) / 2)) ∧
     (∀ s j j', (get_fert dZero 2 1).1 s j = (get_fert dZero 2 1).1 s j')) :=
  ⟨⟨by norm_num, by norm_num, by norm_num⟩,
    C4_fert_bounds dZero 2 1 (by norm_num) (by norm_num) (by norm_num)⟩

/-- Claim C8. For every positive `S` not dividing 60 and every `J`,
`get_survival(S, J)` is still a total `S × J` matrix (by type, modelling
that no error is raised): integer-bucket slicing stops at index
`S * (60 / S) < 60`, silently dropping the trailing single-year points —
the result does not depend on the `survival_rate` values at the dropped
indices. -/
theorem C8_nondivisor_truncation (d e : ExtData) (S J : ℕ) (hS : 1 ≤ S)
    (hnd : ¬ S ∣ 60)
    (hagree : ∀ i < S * (60 / S), survival_rate d i = survival_rate e i) :
    S * (60 / S) < 60 ∧ get_survival d S J = get_survival e S J := by
  constructor
  · exact lt_of_le_of_ne (group_total_le S) fun h => hnd ⟨60 / S, h.symm⟩
  · funext s j
    exact survCond_agree d e S s.val s.isLt hagree

/-- Claim C8 witness. The hypotheses of `C8_nondivisor_truncation` hold at
`S = 7` (which does not divide 60), `J = 1`. -/
theorem C8_nondivisor_truncation_witness :
    (1 ≤ 7 ∧ ¬ (7 : ℕ) ∣ 60 ∧
      ∀ i < 7 * (60 / 7), survival_rate dZero i = survival_rate dMass i) ∧
    (7 * (60 / 7) < 60 ∧ get_survival dZero 7 1 = get_survival dMass 7 1) := by
  have hagree : ∀ i < 7 * (60 / 7),
      survival_rate dZero i = survival_rate dMass i := by
    intro i _
    norm_num [survival_rate, dZero, dMass]
  exact ⟨⟨by norm_num, by decide, hagree⟩,
    C8_nondivisor_truncation dZero dMass 7 1 (by norm_num) (by decide) hagree⟩

/-- Claim C9. The child-immigration vector (second component of
`get_immigration`) is identical for all valid `(S, J)` and `(S', J')`: it is
computed only from the fixed tables and `get_survival(60, 1)`, never from
the `S` and `J` arguments. -/
theorem C9_children_im_independent (d : ExtData) (S J S' J' : ℕ)
    (hS : 2 ≤ S) (hS' : 2 ≤ S') (hJ : 1 ≤ J) (hJ' : 1 ≤ J') :
    (get_immigration d S J).2 = (get_immigration d S' J').2 := rfl

/-- Claim C9 witness. The hypotheses of `C9_children_im_independent` hold at
`(S, J) = (2, 1)` and `(S', J') = (3, 2)`. -/
theorem C9_children_im_independent_witness :
    (2 ≤ 2 ∧ 2 ≤ 3 ∧ 1 ≤ 1 ∧ 1 ≤ 2) ∧
    (get_immigration dZero 2 1).2 = (get_immigration dZero 3 2).2 :=
  ⟨⟨by norm_num, by norm_num, by norm_num, by norm_num⟩,
    C9_children_im_independent dZero 2 1 3 2 (by norm_num) (by norm_num)
      (by norm_num) (by norm_num)⟩

/-! ## Projection lemmas and claims C1, C3, C10 -/

/-- At every step of the projection, all `J` ability columns of the slice
and of the children state are identical (all rate arrays are broadcasts). -/
lemma projSeq_colEq (d : ExtData) (S J : ℕ) (st : DState) (t : ℕ) :
    (∀ (s : Fin S) (j j' : Fin J),
        (projSeq d S J st t).1 s j = (projSeq d S J st t).1 s j') ∧
    (∀ (i : ℕ) (j j' : Fin J),
        (projSeq d S J st t).2 i j = (projSeq d S J st t).2 i j') := by
  induction t with
  | zero => exact ⟨fun s j j' => rfl, fun i j j' => rfl⟩
  | succ t ih =>
    have hω : ∀ (s : Fin S) (j j' : Fin J),
        nextOmega d S J (projSeq d S J st t) s j =
          nextOmega d S J (projSeq d S J st t) s j' := by
      intro s j j'
      unfold nextOmega
      split
      · rw [ih.2 14 j j']
      · rw [ih.1 _ j j']
    refine ⟨fun s j j' => hω s j j', fun i j j' => ?_⟩
    show nextChild d S J (projSeq d S J st t) i j =
      nextChild d S J (projSeq d S J st t) i j'
    unfold nextChild
    split
    · exact Finset.sum_congr rfl fun s _ => by rw [hω s j j']
    · rw [ih.2 _ j j']

/-- Whenever `get_omega` returns a tensor, it is the projection sequence
applied to the normalized state. -/
lemma get_omega_some {d : ExtData} {S J T : ℕ} {st : DState}
    {w : Fin T → Fin S → Fin J → ℚ}
    (h : (get_omega d S J T st).1 = some w) :
    w = fun t s j => (projSeq d S J (normState st) t.val).1 s j := by
  simp only [get_omega] at h
  split at h
  · exact absurd h (by simp)
  · exact (Option.some.inj h).symm

/-- Whenever `get_omega` returns a tensor, `S` is nonzero. -/
lemma get_omega_some_S_pos {d : ExtData} {S J T : ℕ} {st : DState}
    {w : Fin T → Fin S → Fin J → ℚ}
    (h : (get_omega d S J T st).1 = some w) : 1 ≤ S := by
  rcases Nat.eq_zero_or_pos S with h0 | h1
  · subst h0
    simp [get_omega] at h
  · exact h1

/-- Claim C10 (amended). Whenever `get_omega(S, J, T)` returns a tensor (it
raises `IndexError` for `S = 1` with `T ≥ 2`, see the counterexample), the
tensor has identical columns across the ability dimension in every slice:
the even `1/J` split at `t = 0` is preserved by every transition because
all rate arrays are `J`-broadcasts. -/
theorem C10_columns_identical (d : ExtData) (S J T : ℕ) (st : DState)
    (w : Fin T → Fin S → Fin J → ℚ)
    (h : (get_omega d S J T st).1 = some w) :
    ∀ (t : Fin T) (s : Fin S) (j j' : Fin J), w t s j = w t s j' := by
  intro t s j j'
  rw [get_omega_some h]
  exact (projSeq_colEq d S J (normState st) t.val).1 s j j'

/-- Claim C10 counterexample. The claim quantifies over every positive `S`,
`J`, `T`, but at `S = 1`, `J = 1`, `T = 2` the source raises `IndexError`
(`imm_array[0]` on an array with `S - 1 = 0` rows): no tensor is returned
at all. -/
theorem C10_columns_identical_counterexample :
    ¬ ∃ w : Fin 2 → Fin 1 → Fin 1 → ℚ,
        (get_omega dZero 1 1 2 (initState dZero)).1 = some w := by
  rintro ⟨w, hw⟩
  simp [get_omega] at hw

/-- Claim C10 witness. The hypothesis of `C10_columns_identical` holds at
`S = 2`, `J = 1`, `T = 2` with the concrete instance `dZero`. -/
theorem C10_columns_identical_witness :
    ((get_omega dZero 2 1 2 (initState dZero)).1 =
      some fun t s j =>
        (projSeq dZero 2 1 (normState (initState dZero)) t.val).1 s j) ∧
    (∀ (t : Fin 2) (s : Fin 2) (j j' : Fin 1),
      (fun (t : Fin 2) (s : Fin 2) (j : Fin 1) =>
        (projSeq dZero 2 1 (normState (initState dZero)) t.val).1 s j) t s j =
      (fun (t : Fin 2) (s : Fin 2) (j : Fin 1) =>
        (projSeq dZero 2 1 (normState (initState dZero)) t.val).1 s j) t s j') := by
  have h : (get_omega dZero 2 1 2 (initState dZero)).1 =
      some fun t s j =>
        (projSeq dZero 2 1 (normState (initState dZero)) t.val).1 s j := rfl
  exact ⟨h, C10_columns_identical dZero 2 1 2 (initState dZero) _ h⟩

/-- Claim C1. For `S ≥ 2`, `J ≥ 1`, `T ≥ 2` and `1 ≤ t ≤ T - 1`, the tensor
returned by `get_omega(S, J, T)` satisfies the projection recurrence:
slice `t` row 0 equals `children[14] * child_survival[14] * immigration[0]`
(with `children` the running pre-adult state after `t - 1` transitions), and
slice `t` rows `1..S-1` equal slice `t-1` rows `0..S-2` scaled elementwise
by survival rows `0..S-2` and the `S-1` immigration rows. -/
theorem C1_projection_recurrence (d : ExtData) (S J T : ℕ)
    (hS : 2 ≤ S) (hJ : 1 ≤ J) (hT : 2 ≤ T)
    (t : ℕ) (ht1 : 1 ≤ t) (ht2 : t ≤ T - 1) :
    ∃ w, (get_omega d S J T (initState d)).1 = some w ∧
      (∀ j : Fin J,
        w ⟨t, by omega⟩ ⟨0, by omega⟩ j =
          (projSeq d S J (normState (initState d)) (t - 1)).2 14 j *
            d.children_rate 14 *
            (get_immigration d S J).1 ⟨0, by omega⟩ j) ∧
      (∀ s : ℕ, 1 ≤ s → ∀ hs : s < S, ∀ j : Fin J,
        w ⟨t, by omega⟩ ⟨s, hs⟩ j =
          w ⟨t - 1, by omega⟩ ⟨s - 1, by omega⟩ j *
            get_survival d S J ⟨s - 1, by omega⟩ j *
            (get_immigration d S J).1 ⟨s - 1, by omega⟩ j) := by
  obtain ⟨u, rfl⟩ : ∃ u, t = u + 1 := ⟨t - 1, by omega⟩
  refine ⟨fun t s j => (projSeq d S J (normState (initState d)) t.val).1 s j,
    ?_, ?_, ?_⟩
  · simp only [get_omega]
    rw [if_neg (by omega)]
  · intro j
    simp only [Nat.add_sub_cancel]
    show nextOmega d S J (projSeq d S J (normState (initState d)) u)
      ⟨0, by omega⟩ j = _
    unfold nextOmega
    rw [if_pos rfl]
    rfl
  · intro s hs1 hs j
    simp only [Nat.add_sub_cancel]
    show nextOmega d S J (projSeq d S J (normState (initState d)) u)
      ⟨s, hs⟩ j = _
    unfold nextOmega
    rw [if_neg (show ¬ (s = 0) by omega)]
    rfl

/-- Claim C1 witness. The hypotheses of `C1_projection_recurrence` hold at
`S = 2`, `J = 1`, `T = 2`, `t = 1` with the concrete instance `dZero`. -/
theorem C1_projection_recurrence_witness :
    (2 ≤ 2 ∧ 1 ≤ 1 ∧ 2 ≤ 2 ∧ 1 ≤ 1 ∧ 1 ≤ 2 - 1) ∧
    (∃ w, (get_omega dZero 2 1 2 (initState dZero)).1 = some w ∧
      (∀ j : Fin 1,
        w ⟨1, by omega⟩ ⟨0, by omega⟩ j =
          (projSeq dZero 2 1 (normState (initState dZero)) (1 - 1)).2 14 j *
            dZero.children_rate 14 *
            (get_immigration dZero 2 1).1 ⟨0, by omega⟩ j) ∧
      (∀ s : ℕ, 1 ≤ s → ∀ hs : s < 2, ∀ j : Fin 1,
        w ⟨1, by omega⟩ ⟨s, hs⟩ j =
          w ⟨1 - 1, by omega⟩ ⟨s - 1, by omega⟩ j *
            get_survival dZero 2 1 ⟨s - 1, by omega⟩ j *
            (get_immigration dZero 2 1).1 ⟨s - 1, by omega⟩ j)) :=
  ⟨⟨by norm_num, by norm_num, by norm_num, by norm_num, by norm_num⟩,
    C1_projection_recurrence dZero 2 1 2 (by norm_num) (by norm_num)
      (by norm_num) 1 (by norm_num) (by norm_num)⟩

/-- Normalizing an already-normalized table is the identity: each column of
`normState st` sums to 1 (or is identically 0 when the original column sums
to 0), so a second division changes nothing. -/
lemma normState_idem (st : DState) : normState (normState st) = normState st := by
  funext y i
  show normState st y i / (∑ k : Fin 60, normState st y k) = normState st y i
  by_cases h : (∑ k : Fin 60, st y k) = 0
  · have hz : ∀ i : Fin 60, normState st y i = 0 := by
      intro i
      show st y i / _ = 0
      rw [h, div_zero]
    rw [hz i]
    rw [zero_div]
  · have hone : (∑ k : Fin 60, normState st y k) = 1 := by
      show (∑ k : Fin 60, st y k / _) = 1
      rw [← Finset.sum_div, div_self h]
    rw [hone, div_one]

/-- Claim C3. Two successive calls to `get_omega(S, J, T)` with identical
arguments return identical results, although the second call reads the
module table mutated in place by the first: in exact arithmetic the in-place
normalization is idempotent, so the hidden mutation does not change the
result. -/
theorem C3_deterministic (d : ExtData) (S J T : ℕ) :
    (get_omega d S J T (get_omega d S J T (initState d)).2).1 =
      (get_omega d S J T (initState d)).1 := by
  simp only [get_omega]
  rw [normState_idem]

/-! ## Bucket partition lemmas and claims C5, C6, C7 -/

/-- Age `16 + i` lies in bucket `[age_groups[s], age_groups[s+1])` exactly
when `s = i * S / 60`: the `S` buckets partition the 60 retained ages. -/
lemma bucket_mem_iff (S i s : ℕ) (hS : 1 ≤ S) (hi : i < 60) (hs : s < S) :
    (ageGroup S s ≤ 16 + (i : ℚ) ∧ (16 + (i : ℚ)) < ageGroup S (s + 1)) ↔
      i * S / 60 = s := by
  unfold ageGroup
  have hS0 : (0 : ℚ) < (S : ℚ) := by exact_mod_cast hS
  have h1 : (16 + 60 * (s : ℚ) / S ≤ 16 + (i : ℚ)) ↔ s * 60 ≤ i * S := by
    rw [add_le_add_iff_left, div_le_iff₀ hS0]
    constructor
    · intro h
      have hq : ((s * 60 : ℕ) : ℚ) ≤ ((i * S : ℕ) : ℚ) := by push_cast; linarith
      exact_mod_cast hq
    · intro h
      have hq : ((s * 60 : ℕ) : ℚ) ≤ ((i * S : ℕ) : ℚ) := by exact_mod_cast h
      push_cast at hq
      linarith
  have h2 : ((16 + (i : ℚ)) < 16 + 60 * ((s + 1 : ℕ) : ℚ) / S) ↔
      i * S < (s + 1) * 60 := by
    rw [add_lt_add_iff_left, lt_div_iff₀ hS0]
    constructor
    · intro h
      have hq : ((i * S : ℕ) : ℚ) < (((s + 1) * 60 : ℕ) : ℚ) := by
        push_cast
        push_cast at h
        linarith
      exact_mod_cast hq
    · intro h
      have hq : ((i * S : ℕ) : ℚ) < (((s + 1) * 60 : ℕ) : ℚ) := by exact_mod_cast h
      push_cast at hq
      push_cast
      linarith
  rw [h1, h2]
  have hd1 : s ≤ i * S / 60 ↔ s * 60 ≤ i * S :=
    Nat.le_div_iff_mul_le (by norm_num)
  have hd2 : i * S / 60 < s + 1 ↔ i * S < (s + 1) * 60 :=
    Nat.div_lt_iff_lt_mul (by norm_num)
  omega

/-- The sum of `new_omega` over all `S` buckets equals the sum of the
(normalized) 2010 column over all 60 retained ages. -/
lemma sum_new_omega (st : DState) (S : ℕ) (hS : 1 ≤ S) :
    ∑ s : Fin S, new_omega st S s.val = ∑ i : Fin 60, st 0 i := by
  have hlt : ∀ i : Fin 60, i.val * S / 60 < S := by
    intro i
    rw [Nat.div_lt_iff_lt_mul (by norm_num)]
    have h60 := i.isLt
    nlinarith [i.isLt, hS]
  have hfilter : ∀ s : Fin S,
      (Finset.univ.filter (fun i : Fin 60 =>
        ageGroup S s.val ≤ 16 + (i.val : ℚ) ∧
          (16 + (i.val : ℚ)) < ageGroup S (s.val + 1))) =
      (Finset.univ.filter (fun i : Fin 60 =>
        (⟨i.val * S / 60, hlt i⟩ : Fin S) = s)) := by
    intro s
    apply Finset.filter_congr
    intro i _
    rw [bucket_mem_iff S i.val s.val hS i.isLt s.isLt]
    constructor
    · intro h
      exact Fin.ext h
    · intro h
      exact congrArg Fin.val h
  calc ∑ s : Fin S, new_omega st S s.val
      = ∑ s : Fin S, ∑ i in Finset.univ.filter
          (fun i : Fin 60 => (⟨i.val * S / 60, hlt i⟩ : Fin S) = s), st 0 i := by
        refine Finset.sum_congr rfl fun s _ => ?_
        unfold new_omega
        rw [hfilter s]
    _ = ∑ i : Fin 60, st 0 i :=
        Finset.sum_fiberwise_of_maps_to (fun i _ => Finset.mem_univ _) _

/-- Each column of the normalized table sums to 1 (provided the original
column total is nonzero). -/
lemma normState_col_sum (st : DState) (y : Fin 4)
    (h : (∑ i : Fin 60, st y i) ≠ 0) :
    ∑ i : Fin 60, normState st y i = 1 := by
  show (∑ i : Fin 60, st y i / _) = 1
  rw [← Finset.sum_div, div_self h]

/-- The total of the initial slice of the projection is exactly 1 whenever
the 2010 column total is nonzero: the buckets partition the 60 ages, the
column is normalized by that same 60-age total, and the even `1/J` split
sums back over the `J` columns. -/
lemma slice0_total (d : ExtData) (S J : ℕ) (st : DState)
    (hS : 1 ≤ S) (hJ : 1 ≤ J) (hsum : (∑ i : Fin 60, st 0 i) ≠ 0) :
    ∑ s : Fin S, ∑ j : Fin J,
      (projSeq d S J (normState st) 0).1 s j = 1 := by
  have hJ0 : ((J : ℚ)) ≠ 0 := Nat.cast_ne_zero.mpr (by omega)
  show (∑ s : Fin S, ∑ _j : Fin J, new_omega (normState st) S s.val / J) = 1
  have hrow : ∀ s : Fin S,
      (∑ _j : Fin J, new_omega (normState st) S s.val / J) =
        new_omega (normState st) S s.val := by
    intro s
    rw [Finset.sum_const, Finset.card_univ, Fintype.card_fin, nsmul_eq_mul,
      mul_div_cancel₀ _ hJ0]
  rw [Finset.sum_congr rfl fun s _ => hrow s, sum_new_omega _ S hS,
    normState_col_sum st 0 hsum]

/-- Claim C5 (amended). The normalization performed inside `get_omega` turns
each observation per-year retained age distribution into fractions summing to
1 over the restricted working range [16, 76) — the only range the mutable
table holds — not over the full raw age range. -/
theorem C5_normalization_restricted (d : ExtData) (S J T : ℕ) (st : DState) :
    (get_omega d S J T st).2 = normState st ∧
    (∀ y : Fin 4, (∑ i : Fin 60, st y i) ≠ 0 →
      ∑ i : Fin 60, normState st y i = 1) :=
  ⟨rfl, fun y h => normState_col_sum st y h⟩

/-- Claim C5 counterexample. With one person at age 20 and one at age 5, the
code's normalized 2010 column sums to 1 over the restricted range, gives age
20 the fraction 1 (its share of the *restricted* total), whereas its share
of the full raw age range is 1/2; summed over the full raw range the code's
fractions add to 2, not 1. -/
theorem C5_normalization_restricted_counterexample :
    (∑ i : Fin 60, normState (initState dMass) 0 i = 1) ∧
    normState (initState dMass) 0 ⟨4, by omega⟩ = 1 ∧
    specNormFull dMass 0 20 = 1 / 2 ∧
    (∑ a in Finset.range 77,
        dMass.pop 0 a / (∑ k : Fin 60, initState dMass 0 k)) = 2 := by
  have hsum : (∑ k : Fin 60, initState dMass 0 k) = 1 := by
    simp [Fin.sum_univ_succ, initState, dMass]
  refine ⟨?_, ?_, ?_, ?_⟩
  · exact normState_col_sum _ 0 (by rw [hsum]; norm_num)
  · show initState dMass 0 ⟨4, by omega⟩ / _ = 1
    rw [hsum]
    norm_num [initState, dMass]
  · show dMass.pop 0 20 / _ = 1 / 2
    have : (∑ b in Finset.range dMass.nAges, dMass.pop 0 b) = 2 := by
      show (∑ b in Finset.range 77, dMass.pop 0 b) = 2
      simp [Finset.sum_range_succ, dMass]
      norm_num
    rw [this]
    norm_num [dMass]
  · rw [hsum]
    simp [Finset.sum_range_succ, dMass]
    norm_num

/-- Claim C5 witness. The hypothesis of `C5_normalization_restricted`'s
second conjunct holds at `dMass` with year 0. -/
theorem C5_normalization_restricted_witness :
    ((∑ i : Fin 60, initState dMass 0 i) ≠ 0) ∧
    ((get_omega dMass 2 1 1 (initState dMass)).2 = normState (initState dMass) ∧
     (∀ y : Fin 4, (∑ i : Fin 60, initState dMass y i) ≠ 0 →
       ∑ i : Fin 60, normState (initState dMass) y i = 1)) := by
  have hsum : (∑ k : Fin 60, initState dMass 0 k) = 1 := by
    simp [Fin.sum_univ_succ, initState, dMass]
  exact ⟨by rw [hsum]; norm_num,
    C5_normalization_restricted dMass 2 1 1 (initState dMass)⟩

/-- Claim C6 (amended). Whenever `get_omega(S, J, T)` returns a tensor and the
retained 2010 column total is nonzero, the sum of all entries of slice 0 is
*exactly* 1 — regardless of whether population mass lies outside the
restricted range [16, 76), because the code normalizes by the restricted
total itself. -/
theorem C6_slice0_conservation (d : ExtData) (S J T : ℕ) (st : DState)
    (w : Fin T → Fin S → Fin J → ℚ)
    (h : (get_omega d S J T st).1 = some w) (hT : 0 < T) (hJ : 1 ≤ J)
    (hsum : (∑ i : Fin 60, st 0 i) ≠ 0) :
    ∑ s : Fin S, ∑ j : Fin J, w ⟨0, hT⟩ s j = 1 := by
  have hS := get_omega_some_S_pos h
  rw [get_omega_some h]
  exact slice0_total d S J st hS hJ hsum

/-- Claim C6 counterexample. The claim allows exact equality *only if* no
population mass lies outside [16, 76); but with one person at age 20 and
one at age 5 (outside the range), slice 0 still sums to exactly 1. -/
theorem C6_slice0_conservation_counterexample :
    ∃ w, (get_omega dMass 2 1 1 (initState dMass)).1 = some w ∧
      (∑ s : Fin 2, ∑ j : Fin 1, w ⟨0, by omega⟩ s j) = 1 ∧
      dMass.pop 0 5 ≠ 0 := by
  refine ⟨_, rfl, ?_, by norm_num [dMass]⟩
  have hsum : (∑ k : Fin 60, initState dMass 0 k) = 1 := by
    simp [Fin.sum_univ_succ, initState, dMass]
  exact slice0_total dMass 2 1 (initState dMass) (by norm_num) (by norm_num)
    (by rw [hsum]; norm_num)

/-- Claim C6 witness. The hypotheses of `C6_slice0_conservation` hold at
`dMass`, `S = 2`, `J = 1`, `T = 1`. -/
theorem C6_slice0_conservation_witness :
    ((get_omega dMass 2 1 1 (initState dMass)).1 =
        some (fun t s j =>
          (projSeq dMass 2 1 (normState (initState dMass)) t.val).1 s j) ∧
      (0 : ℕ) < 1 ∧ 1 ≤ 1 ∧ (∑ i : Fin 60, initState dMass 0 i) ≠ 0) ∧
    (∑ s : Fin 2, ∑ j : Fin 1,
      (fun (t : Fin 1) (s : Fin 2) (j : Fin 1) =>
        (projSeq dMass 2 1 (normState (initState dMass)) t.val).1 s j)
        ⟨0, by omega⟩ s j) = 1 := by
  have hsum : (∑ k : Fin 60, initState dMass 0 k) = 1 := by
    simp [Fin.sum_univ_succ, initState, dMass]
  have hne : (∑ i : Fin 60, initState dMass 0 i) ≠ 0 := by
    rw [hsum]; norm_num
  exact ⟨⟨rfl, by norm_num, by norm_num, hne⟩,
    C6_slice0_conservation dMass 2 1 1 (initState dMass) _ rfl (by norm_num)
      (by norm_num) hne⟩

/-- Claim C7 (amended). For `S ≥ 2`, `J ≥ 1`, `get_immigration(S, J)` fits a
degree-10 polynomial to the immigration factor over the 74 evenly spaced
points `1 + 74*i/73` (i = 0..73) spanning ages 1–75 — *not* at integer
ages — evaluates it at those same points, returns the first 14 fitted
values as the child-immigration vector, and returns the values from index
15 on re-binned by group product into an `(S-1) × J` broadcast matrix. -/
theorem C7_immigration_grid (d : ExtData) (S J : ℕ) (hS : 2 ≤ S) (hJ : 1 ≤ J) :
    (∀ i : Fin 14,
      (get_immigration d S J).2 i =
        polyval (poly_imm d) (1 + 74 * (i.val : ℚ) / 73)) ∧
    (∀ (s : Fin (S - 1)) (j : Fin J),
      (get_immigration d S J).1 s j =
        ∏ i in Finset.Ico (s.val * (60 / S)) ((s.val + 1) * (60 / S)),
          polyval (poly_imm d) (1 + 74 * ((15 + i : ℕ) : ℚ) / 73)) ∧
    (∀ s j j', (get_immigration d S J).1 s j = (get_immigration d S J).1 s j') :=
  ⟨fun i => rfl, fun s j => rfl, fun s j j' => rfl⟩

/-- Claim C7 counterexample. With the identity polynomial as the fitted
immigration curve, entry 1 of the child-immigration vector is
`1 + 74/73 = 147/73` (the second point of `linspace(1, 75, 74)`), not the
fitted value `2` at integer age 2 claimed by the spec. -/
theorem C7_immigration_grid_counterexample :
    (get_immigration dIdImm 60 1).2 ⟨1, by omega⟩ = 147 / 73 ∧
    children_im_spec (poly_imm dIdImm) 1 = 2 ∧
    (get_immigration dIdImm 60 1).2 ⟨1, by omega⟩ ≠
      children_im_spec (poly_imm dIdImm) 1 := by
  refine ⟨?_, ?_, ?_⟩
  · show children_im dIdImm 1 = 147 / 73
    norm_num [children_im, im_array, immAge, poly_imm, dIdImm, polyval]
  · norm_num [children_im_spec, poly_imm, dIdImm, polyval]
  · show children_im dIdImm 1 ≠ children_im_spec (poly_imm dIdImm) 1
    norm_num [children_im, children_im_spec, im_array, immAge, poly_imm,
      dIdImm, polyval]

/-- Claim C7 witness. The hypotheses of `C7_immigration_grid` hold at
`S = 2`, `J = 1`. -/
theorem C7_immigration_grid_witness :
    (2 ≤ 2 ∧ 1 ≤ 1) ∧
    ((∀ i : Fin 14,
       (get_immigration dZero 2 1).2 i =
         polyval (poly_imm dZero) (1 + 74 * (i.val : ℚ) / 73)) ∧
     (∀ (s : Fin (2 - 1)) (j : Fin 1),
       (get_immigration dZero 2 1).1 s j =
         ∏ i in Finset.Ico (s.val * (60 / 2)) ((s.val + 1) * (60 / 2)),
           polyval (poly_imm dZero) (1 + 74 * ((15 + i : ℕ) : ℚ) / 73)) ∧
     (∀ s j j',
       (get_immigration dZero 2 1).1 s j = (get_immigration dZero 2 1).1 s j')) :=
  ⟨⟨by norm_num, by norm_num⟩,
    C7_immigration_grid dZero 2 1 (by norm_num) (by norm_num)⟩

end Demographics
